import Mathlib

/-!
A shallow embedding of the synthetic academic-graph generator
(`generate_synthetic_dataset.py`) together with proofs of the structural
properties claimed by the specification.

Randomness in the Python source (`random.randint`, `random.sample`,
`random.choices`, `random.uniform`, `random.random`) is modelled by oracle
parameters; each theorem quantifies over all oracles satisfying the
documented contract of the corresponding library primitive (e.g.
`random.sample(pool, k)` returns `k` distinct elements of `pool`).
-/

/-! ## Configuration constants (from the CONFIGURATION SETTINGS section) -/

def TERMS_TO_GENERATE : Nat := 12
def HISTORY_YEARS : Int := 4
def MAX_PREREQS_PER_COURSE : Nat := 3

def DEPARTMENTS : List String :=
  ["Computer Science", "Information Systems", "Mathematics", "Physics",
   "Chemistry", "Biology", "Psychology", "English", "History",
   "Political Science", "Sociology", "Economics", "Visual Arts", "Music",
   "Engineering"]

/-! ## Terms (`generate_terms`, `get_term_by_date`)

A Python term id is the string `f"{season}{year}"`; since the three season
names are pairwise distinct and contain no digits, the id is in bijection
with the pair (season, year), which is how we represent it. -/

inductive Season where
  | spring
  | summer
  | fall
deriving DecidableEq, Repr

/-- Fixed seasonal window start (month, day) from `term_info`. -/
def seasonStartMonth : Season → Int
  | .spring => 1
  | .summer => 6
  | .fall => 8

def seasonStartDay : Season → Int
  | .spring => 25
  | .summer => 1
  | .fall => 25

structure Term where
  season : Season
  year : Int
deriving DecidableEq, Repr

/-- Numeric key of a term's start date; comparing keys is comparing the
start dates chronologically (year, then month, then day). -/
def Term.startKey (t : Term) : Int :=
  t.year * 10000 + seasonStartMonth t.season * 100 + seasonStartDay t.season

/-- Iteration order of the `term_info` dict: Spring, Summer, Fall. -/
def seasonOrder : List Season := [.spring, .summer, .fall]

/-- `generate_terms`: three terms per year from `current_year - HISTORY_YEARS`
through `current_year + 1`, the append guarded by the `TERMS_TO_GENERATE`
cap (the Python `break` re-checked at each inner iteration). -/
def generateTerms (currentYear : Int) : List Term :=
  let startYear := currentYear - HISTORY_YEARS
  (List.range (HISTORY_YEARS.toNat + 2)).foldl
    (fun terms k =>
      seasonOrder.foldl
        (fun ts s =>
          if TERMS_TO_GENERATE ≤ ts.length then ts
          else ts ++ [⟨s, startYear + k⟩])
        terms)
    []

/-- `get_term_by_date`: months 1–5 are Spring, 6–7 Summer, the rest Fall. -/
def getTermByDate (month year : Int) : Term :=
  if 1 ≤ month ∧ month ≤ 5 then ⟨.spring, year⟩
  else if 6 ≤ month ∧ month ≤ 7 then ⟨.summer, year⟩
  else ⟨.fall, year⟩

lemma generateTerms_eq (cy : Int) :
    generateTerms cy =
      [⟨.spring, cy - 4⟩, ⟨.summer, cy - 4⟩, ⟨.fall, cy - 4⟩,
       ⟨.spring, cy - 3⟩, ⟨.summer, cy - 3⟩, ⟨.fall, cy - 3⟩,
       ⟨.spring, cy - 2⟩, ⟨.summer, cy - 2⟩, ⟨.fall, cy - 2⟩,
       ⟨.spring, cy - 1⟩, ⟨.summer, cy - 1⟩, ⟨.fall, cy - 1⟩] := by
  simp [generateTerms, seasonOrder, HISTORY_YEARS, TERMS_TO_GENERATE,
    List.range_succ, List.foldl]
  omega

/-- The generated term list is strictly increasing under every pair of
indices (`Pairwise`, the transitive closure of the adjacent-index
ordering proved in the C7 theorem). -/
lemma generateTerms_pairwise (cy : Int) :
    (generateTerms cy).Pairwise
      (fun a b : Term => a.startKey < b.startKey) := by
  rw [generateTerms_eq]
  simp [List.pairwise_cons, Term.startKey, seasonStartMonth,
    seasonStartDay]
  omega

/-- C7: the generated term list is strictly chronological and respects the
configured cap. -/
theorem generate_terms_chronological_and_capped (cy : Int) :
    List.Chain' (fun a b : Term => a.startKey < b.startKey) (generateTerms cy) ∧
      (generateTerms cy).length ≤ TERMS_TO_GENERATE := by
  rw [generateTerms_eq]
  refine ⟨?_, by simp [TERMS_TO_GENERATE]⟩
  simp [List.chain'_cons, Term.startKey, seasonStartMonth, seasonStartDay]
  omega

/-- Every generated term belongs to a year strictly before the current one
(with the configured cap of 12 terms only the four historical years are
emitted); consequently `get_term_by_date(now)` never occurs in the list. -/
lemma generateTerms_year_lt (cy : Int) :
    ∀ t ∈ generateTerms cy, t.year < cy := by
  rw [generateTerms_eq]
  intro t ht
  simp only [List.mem_cons, List.not_mem_nil, or_false] at ht
  rcases ht with h | h | h | h | h | h | h | h | h | h | h | h <;> subst h <;>
    simp only [] <;> omega

lemma getTermByDate_year (month year : Int) :
    (getTermByDate month year).year = year := by
  unfold getTermByDate
  split <;> [rfl; skip]
  split <;> rfl

lemma currentTerm_not_mem_generateTerms (month cy : Int) :
    getTermByDate month cy ∉ generateTerms cy := by
  intro h
  have := generateTerms_year_lt cy _ h
  rw [getTermByDate_year] at this
  omega

/-! ## Distribution sampler (`weighted_choice`)

`random.choices(population, weights=w, k=1)[0]` computes the cumulative
weights, raises `ValueError` when their total is not positive, and otherwise
returns `population[bisect(cum_weights, random() * total, 0, n - 1)]`.
The uniform draw `random()` is the oracle argument `r ∈ [0, 1)`; `none`
models the raised `ValueError`. -/

/-- The bisect step of `random.choices`: walk the weights, clamped to the
last element (`hi = n - 1`). -/
def pickByWeight : List (String × ℚ) → ℚ → Option String
  | [], _ => none
  | [(k, _)], _ => some k
  | (k, w) :: p :: rest, pos =>
      if pos < w then some k else pickByWeight (p :: rest) (pos - w)

/-- `weighted_choice(choices_dict)`: the dict is modelled as its
(key, weight) association list, in insertion order. -/
def weighted_choice (choices : List (String × ℚ)) (r : ℚ) : Option String :=
  let total := (choices.map Prod.snd).sum
  if total ≤ 0 then none
  else pickByWeight choices (r * total)

lemma pickByWeight_mem (choices : List (String × ℚ)) (pos : ℚ)
    (h : choices ≠ []) :
    ∃ k, pickByWeight choices pos = some k ∧ k ∈ choices.map Prod.fst := by
  induction choices generalizing pos with
  | nil => exact absurd rfl h
  | cons a rest ih =>
    cases rest with
    | nil => exact ⟨a.1, by simp [pickByWeight], by simp⟩
    | cons b rest' =>
      by_cases hpos : pos < a.2
      · exact ⟨a.1, by simp [pickByWeight, hpos], by simp⟩
      · obtain ⟨k, hk, hmem⟩ := ih (pos - a.2) (by simp)
        refine ⟨k, ?_, by rw [List.map_cons]; exact List.mem_cons_of_mem _ hmem⟩
        simpa [pickByWeight, hpos] using hk

/-- C6 counterexample: the single-entry mapping `{"a": 0}` has non-negative
weights, yet `weighted_choice` fails on it (models the `ValueError` raised
by `random.choices` when the total weight is not positive) instead of
returning `"a"`. -/
theorem weighted_choice_fails_on_zero_weight :
    weighted_choice [("a", 0)] 0 = none := by
  norm_num [weighted_choice]

/-- C6 (amended): for every non-empty mapping whose total weight is
positive, `weighted_choice` returns exactly one outcome and that outcome is
a key of the mapping; for a single-entry mapping with positive weight it
returns that entry's key. -/
theorem weighted_choice_ok (choices : List (String × ℚ)) (r : ℚ)
    (hne : choices ≠ []) (hpos : 0 < (choices.map Prod.snd).sum) :
    (∃ k, weighted_choice choices r = some k ∧ k ∈ choices.map Prod.fst) ∧
      (∀ k w, choices = [(k, w)] → weighted_choice choices r = some k) := by
  constructor
  · unfold weighted_choice
    rw [if_neg (by exact not_le.mpr hpos)]
    exact pickByWeight_mem choices _ hne
  · intro k w hkw
    subst hkw
    simp only [List.map_cons, List.map_nil, List.sum_cons, List.sum_nil,
      add_zero] at hpos
    unfold weighted_choice
    rw [if_neg (by simpa using not_le.mpr hpos)]
    rfl

theorem weighted_choice_ok_witness :
    (([("a", (1 : ℚ))] : List (String × ℚ)) ≠ [] ∧
        0 < (([("a", (1 : ℚ))]).map Prod.snd).sum) ∧
      ∃ k, weighted_choice [("a", (1 : ℚ))] (1/2) = some k ∧
        k ∈ ([("a", (1 : ℚ))]).map Prod.fst := by
  refine ⟨⟨by simp, by norm_num⟩, ?_⟩
  exact (weighted_choice_ok [("a", 1)] (1/2) (by simp) (by norm_num)).1

/-! ## Courses and the curriculum graph builder (`generate_prerequisites`)

A course as produced by `generate_courses`; the four learning-style success
rates are `Option`s because the filler courses generated after the
per-department loop do not carry those keys. -/

structure Course where
  id : String
  department : String
  credits : Nat
  level : Nat
  avgDifficulty : Int
  avgTimeCommitment : Int
  termAvailability : List Season
  instructionModes : List String
  tags : List String
  visualLearnerSuccess : Option ℚ
  auditoryLearnerSuccess : Option ℚ
  kinestheticLearnerSuccess : Option ℚ
  readingLearnerSuccess : Option ℚ
deriving DecidableEq, Repr

structure PrereqEdge where
  source : String
  target : String
  strength : String
  minGrade : String
deriving DecidableEq, Repr

/-- `range(100, level, 100)`: the strictly lower level bands. -/
def lowerLevels (level : Nat) : List Nat :=
  List.range' 100 ((level - 1) / 100) 100

/-- The `by_dept_level[(d, l)]` group, in course-list order. -/
def deptLevelCourses (courses : List Course) (d : String) (l : Nat) :
    List Course :=
  courses.filter (fun c => c.department = d ∧ c.level = l)

/-- All courses of department `d` at the level bands strictly below `level`
(the `for l in range(100, level, 100)` accumulation). -/
def lowerLevelPool (courses : List Course) (d : String) (level : Nat) :
    List Course :=
  (lowerLevels level).flatMap (fun l => deptLevelCourses courses d l)

/-- Candidate prerequisites for a course: same-department strictly-lower
levels, widened to every other department's strictly-lower levels when the
same-department pool is smaller than the requested count. -/
def potentialPrereqs (courses : List Course) (dept : String) (level : Nat)
    (numPrereqs : Nat) : List Course :=
  let sameDept := lowerLevelPool courses dept level
  if sameDept.length < numPrereqs then
    sameDept ++
      (DEPARTMENTS.filter (fun d => d ≠ dept)).flatMap
        (fun d => lowerLevelPool courses d level)
  else sameDept

/-- The level-dependent target prerequisite count; `rint a b` models
`random.randint(a, b)`. -/
def numPrereqsFor (level : Nat) (rint : Nat → Nat → Nat) : Nat :=
  if level ≤ 200 then rint 0 1
  else if level ≤ 300 then rint 1 2
  else if level ≤ 400 then rint 1 3
  else rint 2 MAX_PREREQS_PER_COURSE

/-- The edges `generate_prerequisites` produces for one course. Oracles:
`rint cid` for `random.randint`, `sample cid pool n` for
`random.sample(pool, n)`, `strengthCoin`/`gradePick` for the per-edge
strength flip and minimum-grade choice. -/
def coursePrereqEdges (courses : List Course)
    (rint : String → Nat → Nat → Nat)
    (sample : String → List Course → Nat → List Course)
    (strengthCoin : String → String → Bool)
    (gradePick : String → String → String) (course : Course) :
    List PrereqEdge :=
  if 100 < course.level then
    let n0 := min (numPrereqsFor course.level (rint course.id))
      MAX_PREREQS_PER_COURSE
    let pool := potentialPrereqs courses course.department course.level n0
    let n := min n0 pool.length
    (sample course.id pool n).map (fun p =>
      { source := p.id, target := course.id,
        strength :=
          if strengthCoin p.id course.id then "Required" else "Recommended",
        minGrade :=
          if strengthCoin p.id course.id then gradePick p.id course.id
          else "" })
  else []

def generatePrerequisites (courses : List Course)
    (rint : String → Nat → Nat → Nat)
    (sample : String → List Course → Nat → List Course)
    (strengthCoin : String → String → Bool)
    (gradePick : String → String → String) : List PrereqEdge :=
  courses.flatMap (coursePrereqEdges courses rint sample strengthCoin gradePick)

lemma mem_lowerLevels_lt {l level : Nat} (h : l ∈ lowerLevels level) :
    l < level := by
  rw [lowerLevels, List.mem_range'] at h
  obtain ⟨i, hi, rfl⟩ := h
  omega

lemma mem_lowerLevelPool {p : Course} {courses : List Course} {d : String}
    {level : Nat} (h : p ∈ lowerLevelPool courses d level) :
    p ∈ courses ∧ p.level < level := by
  rw [lowerLevelPool, List.mem_flatMap] at h
  obtain ⟨l, hl, hp⟩ := h
  rw [deptLevelCourses, List.mem_filter] at hp
  have := mem_lowerLevels_lt hl
  have hlev : p.level = l := by
    have := hp.2
    simp only [decide_eq_true_eq] at this
    exact this.2
  exact ⟨hp.1, by omega⟩

lemma mem_potentialPrereqs {p : Course} {courses : List Course} {dept : String}
    {level n : Nat} (h : p ∈ potentialPrereqs courses dept level n) :
    p ∈ courses ∧ p.level < level := by
  rw [potentialPrereqs] at h
  split at h
  · rw [List.mem_append] at h
    rcases h with h | h
    · exact mem_lowerLevelPool h
    · rw [List.mem_flatMap] at h
      obtain ⟨d, _, hp⟩ := h
      exact mem_lowerLevelPool hp
  · exact mem_lowerLevelPool h

/-- A cycle in an edge list: a non-empty run of edges, consecutively
linked target-to-source, whose last target returns to the first source. -/
def EdgeCycle (edges cyc : List PrereqEdge) : Prop :=
  cyc ≠ [] ∧ (∀ e ∈ cyc, e ∈ edges) ∧
    List.Chain' (fun a b => a.target = b.source) cyc ∧
    cyc.getLast?.map PrereqEdge.target = cyc.head?.map PrereqEdge.source

/-- The (unique, given id-uniqueness) level of the course with a given id. -/
def levelOfId (courses : List Course) (cid : String) : Nat :=
  ((courses.find? (fun c => c.id = cid)).map Course.level).getD 0

lemma find?_id_eq_of_mem {c : Course} {courses : List Course}
    (hc : c ∈ courses) (hids : (courses.map Course.id).Nodup) :
    courses.find? (fun x => x.id = c.id) = some c := by
  induction courses with
  | nil => cases hc
  | cons a rest ih =>
    rw [List.map_cons, List.nodup_cons] at hids
    rcases List.mem_cons.mp hc with rfl | hmem
    · simp [List.find?]
    · have hne : a.id ≠ c.id := by
        intro heq
        exact hids.1 (heq ▸ List.mem_map_of_mem Course.id hmem)
      rw [List.find?_cons_of_neg _ (by simpa using hne)]
      exact ih hmem hids.2

lemma levelOfId_eq {c : Course} {courses : List Course} (hc : c ∈ courses)
    (hids : (courses.map Course.id).Nodup) :
    levelOfId courses c.id = c.level := by
  rw [levelOfId, find?_id_eq_of_mem hc hids]
  rfl

/-- Along a linked chain of strictly level-increasing edges, the level of
the first source is strictly below the level of the last target. -/
lemma chain_level_lt (f : String → Nat) (rest : List PrereqEdge) :
    ∀ (e b : PrereqEdge),
      (∀ x ∈ e :: rest, f x.source < f x.target) →
      List.Chain' (fun a b => a.target = b.source) (e :: rest) →
      (e :: rest).getLast? = some b →
      f e.source < f b.target := by
  induction rest with
  | nil =>
    intro e b hlt _ hb
    rw [List.getLast?_singleton, Option.some.injEq] at hb
    subst hb
    exact hlt e (by simp)
  | cons e' rest' ih =>
    intro e b hlt hchain hb
    have hch := List.chain'_cons.mp hchain
    have h1 : f e.source < f e.target := hlt e (by simp)
    have h2 := ih e' b (fun x hx => hlt x (List.mem_cons_of_mem _ hx)) hch.2
      (by rw [List.getLast?_cons_cons] at hb; exact hb)
    rw [hch.1] at h1
    omega

/-- C1: every generated PREREQUISITE_FOR edge goes from a strictly
lower-level course to a strictly higher-level one (whatever the two
departments are), and consequently the generated edge set contains no
cycle. -/
theorem prerequisites_strictly_lower_and_acyclic (courses : List Course)
    (rint : String → Nat → Nat → Nat)
    (sample : String → List Course → Nat → List Course)
    (strengthCoin : String → String → Bool)
    (gradePick : String → String → String)
    (hsample : ∀ cid pool n, ∀ p ∈ sample cid pool n, p ∈ pool)
    (hids : (courses.map Course.id).Nodup) :
    (∀ e ∈ generatePrerequisites courses rint sample strengthCoin gradePick,
        ∃ cs ∈ courses, ∃ ct ∈ courses,
          cs.id = e.source ∧ ct.id = e.target ∧ cs.level < ct.level) ∧
      ∀ cyc : List PrereqEdge,
        ¬ EdgeCycle (generatePrerequisites courses rint sample strengthCoin
            gradePick) cyc := by
  have hedge : ∀ e ∈ generatePrerequisites courses rint sample strengthCoin
      gradePick, ∃ cs ∈ courses, ∃ ct ∈ courses,
        cs.id = e.source ∧ ct.id = e.target ∧ cs.level < ct.level := by
    intro e he
    rw [generatePrerequisites, List.mem_flatMap] at he
    obtain ⟨c, hc, hec⟩ := he
    rw [coursePrereqEdges] at hec
    split at hec
    · rw [List.mem_map] at hec
      obtain ⟨p, hp, rfl⟩ := hec
      have hpool := mem_potentialPrereqs (hsample _ _ _ _ hp)
      exact ⟨p, hpool.1, c, hc, rfl, rfl, hpool.2⟩
    · cases hec
  refine ⟨hedge, ?_⟩
  intro cyc hcyc
  obtain ⟨hne, hmem, hchain, hclose⟩ := hcyc
  have hlt : ∀ e ∈ cyc, levelOfId courses e.source < levelOfId courses
      e.target := by
    intro e he
    obtain ⟨cs, hcs, ct, hct, hs, ht, hlev⟩ := hedge e (hmem e he)
    rw [← hs, ← ht, levelOfId_eq hcs hids, levelOfId_eq hct hids]
    exact hlev
  cases cyc with
  | nil => exact hne rfl
  | cons e rest =>
    have hsome : ((e :: rest).getLast?).isSome := by
      rw [List.getLast?_isSome]
      exact List.cons_ne_nil e rest
    obtain ⟨b, hb⟩ := Option.isSome_iff_exists.mp hsome
    have hlev := chain_level_lt (levelOfId courses) rest e b hlt hchain hb
    rw [hb, List.head?_cons] at hclose
    simp only [Option.map_some', Option.some.injEq] at hclose
    rw [hclose] at hlev
    omega

/-- A small concrete course catalogue: two Computer Science courses at
levels 100 and 200. -/
def courseA : Course :=
  ⟨"CMSC 100", "Computer Science", 3, 100, 3, 6, [.fall, .spring],
    ["In-person"], [], none, none, none, none⟩

def courseB : Course :=
  ⟨"CMSC 200", "Computer Science", 3, 200, 3, 7, [.fall, .spring],
    ["In-person"], [], none, none, none, none⟩

/-- A deterministic stand-in for `random.sample`: take the first `n`. -/
def takeSample (_cid : String) (pool : List Course) (n : Nat) : List Course :=
  pool.take n

theorem prerequisites_acyclic_witness :
    ¬ EdgeCycle
        (generatePrerequisites [courseA, courseB] (fun _ a _ => a) takeSample
          (fun _ _ => true) (fun _ _ => "C"))
        [⟨"CMSC 100", "CMSC 200", "Required", "C"⟩,
         ⟨"CMSC 200", "CMSC 100", "Required", "C"⟩] :=
  (prerequisites_strictly_lower_and_acyclic [courseA, courseB]
    (fun _ a _ => a) takeSample (fun _ _ => true) (fun _ _ => "C")
    (fun _ _ n p hp => List.mem_of_mem_take hp) (by decide)).2 _

/-! ## C8: prerequisite-count clamping -/

/-- The target prerequisite count for a course after the global cap
(`num_prereqs = min(num_prereqs, MAX_PREREQS_PER_COURSE)`). -/
def prereqTargetCount (rint : String → Nat → Nat → Nat) (c : Course) : Nat :=
  min (numPrereqsFor c.level (rint c.id)) MAX_PREREQS_PER_COURSE

/-- The candidate pool actually used for a course. -/
def prereqPool (courses : List Course) (rint : String → Nat → Nat → Nat)
    (c : Course) : List Course :=
  potentialPrereqs courses c.department c.level (prereqTargetCount rint c)

/-- The number of generated PREREQUISITE_FOR edges whose target is `c`. -/
def incomingPrereqCount (courses : List Course)
    (rint : String → Nat → Nat → Nat)
    (sample : String → List Course → Nat → List Course)
    (strengthCoin : String → String → Bool)
    (gradePick : String → String → String) (c : Course) : Nat :=
  ((generatePrerequisites courses rint sample strengthCoin gradePick).filter
    (fun e => e.target = c.id)).length

lemma coursePrereqEdges_target (courses : List Course)
    (rint : String → Nat → Nat → Nat)
    (sample : String → List Course → Nat → List Course)
    (strengthCoin : String → String → Bool)
    (gradePick : String → String → String) (c : Course) :
    ∀ e ∈ coursePrereqEdges courses rint sample strengthCoin gradePick c,
      e.target = c.id := by
  intro e he
  rw [coursePrereqEdges] at he
  split at he
  · rw [List.mem_map] at he
    obtain ⟨p, _, rfl⟩ := he
    rfl
  · cases he

/-- Filtering the flat-mapped edge list on one target id recovers exactly
that course's own edge block, given unique course ids. -/
lemma filter_flatMap_target (f : Course → List PrereqEdge)
    (hf : ∀ c' e, e ∈ f c' → e.target = c'.id) :
    ∀ (L : List Course), (L.map Course.id).Nodup → ∀ c ∈ L,
      (L.flatMap f).filter (fun e => e.target = c.id) = f c := by
  intro L
  induction L with
  | nil => intro _ c hc; cases hc
  | cons a rest ih =>
    intro hnd c hc
    rw [List.map_cons, List.nodup_cons] at hnd
    rw [List.flatMap_cons, List.filter_append]
    rcases List.mem_cons.mp hc with rfl | hmem
    · have h1 : (f c).filter (fun e => e.target = c.id) = f c :=
        List.filter_eq_self.mpr (fun e he => by simp [hf c e he])
      have h2 : (rest.flatMap f).filter (fun e => e.target = c.id) = [] := by
        rw [List.filter_eq_nil_iff]
        intro e he
        rw [List.mem_flatMap] at he
        obtain ⟨c', hc', hec'⟩ := he
        have ht := hf c' e hec'
        have hne : c'.id ≠ c.id := fun heq =>
          hnd.1 (heq ▸ List.mem_map_of_mem Course.id hc')
        simp [ht, hne]
      rw [h1, h2, List.append_nil]
    · have h1 : (f a).filter (fun e => e.target = c.id) = [] := by
        rw [List.filter_eq_nil_iff]
        intro e he
        have ht := hf a e he
        have hne : a.id ≠ c.id := fun heq =>
          hnd.1 (heq ▸ List.mem_map_of_mem Course.id hmem)
        simp [ht, hne]
      rw [h1, List.nil_append]
      exact ih hnd.2 c hmem

lemma potentialPrereqs_eq_nil_of_low {courses : List Course} {dept : String}
    {level n : Nat} (h : level ≤ 100) :
    potentialPrereqs courses dept level n = [] := by
  have hll : lowerLevels level = [] := by
    rw [lowerLevels]
    have : (level - 1) / 100 = 0 := by omega
    rw [this]
    rfl
  have hpool : ∀ d, lowerLevelPool courses d level = [] := by
    intro d
    rw [lowerLevelPool, hll]
    rfl
  rw [potentialPrereqs]
  simp [hpool]

/-- C8: for every course the number of generated incoming PREREQUISITE_FOR
edges is at most `MAX_PREREQS_PER_COURSE` and at most the size of the
candidate pool; when the pool is smaller than the sampled target count the
edge count silently equals the pool size (clamping, not an error). -/
theorem prereq_count_clamped (courses : List Course)
    (rint : String → Nat → Nat → Nat)
    (sample : String → List Course → Nat → List Course)
    (strengthCoin : String → String → Bool)
    (gradePick : String → String → String)
    (hsamplen : ∀ cid pool n, n ≤ pool.length →
      (sample cid pool n).length = n)
    (hids : (courses.map Course.id).Nodup) :
    ∀ c ∈ courses,
      incomingPrereqCount courses rint sample strengthCoin gradePick c ≤
          MAX_PREREQS_PER_COURSE ∧
        incomingPrereqCount courses rint sample strengthCoin gradePick c ≤
          (prereqPool courses rint c).length ∧
        ((prereqPool courses rint c).length < prereqTargetCount rint c →
          incomingPrereqCount courses rint sample strengthCoin gradePick c =
            (prereqPool courses rint c).length) := by
  intro c hc
  have hinc : incomingPrereqCount courses rint sample strengthCoin gradePick
      c = (coursePrereqEdges courses rint sample strengthCoin gradePick
        c).length := by
    rw [incomingPrereqCount, generatePrerequisites,
      filter_flatMap_target _ (coursePrereqEdges_target courses rint sample
        strengthCoin gradePick) courses hids c hc]
  rw [hinc, coursePrereqEdges]
  split
  · rw [List.length_map]
    rw [show numPrereqsFor c.level (rint c.id) ⊓ MAX_PREREQS_PER_COURSE =
      prereqTargetCount rint c from rfl]
    rw [show potentialPrereqs courses c.department c.level
      (prereqTargetCount rint c) = prereqPool courses rint c from rfl]
    have hn : min (prereqTargetCount rint c)
        (prereqPool courses rint c).length ≤
        (prereqPool courses rint c).length := Nat.min_le_right _ _
    rw [hsamplen _ _ _ hn]
    refine ⟨?_, ?_, ?_⟩
    · calc min (prereqTargetCount rint c) (prereqPool courses rint c).length
          ≤ prereqTargetCount rint c := Nat.min_le_left _ _
        _ ≤ MAX_PREREQS_PER_COURSE := Nat.min_le_right _ _
    · exact Nat.min_le_right _ _
    · intro hlt
      omega
  · rename_i hlev
    have hlow : c.level ≤ 100 := by omega
    have : (prereqPool courses rint c).length = 0 := by
      rw [prereqPool, potentialPrereqs_eq_nil_of_low hlow]
      rfl
    simp [this]

theorem prereq_count_clamped_witness :
    incomingPrereqCount [courseA, courseB] (fun _ a _ => a) takeSample
        (fun _ _ => true) (fun _ _ => "C") courseB ≤
        MAX_PREREQS_PER_COURSE ∧
      incomingPrereqCount [courseA, courseB] (fun _ a _ => a) takeSample
        (fun _ _ => true) (fun _ _ => "C") courseB ≤
        (prereqPool [courseA, courseB] (fun _ a _ => a) courseB).length :=
  let h := prereq_count_clamped [courseA, courseB] (fun _ a _ => a)
    takeSample (fun _ _ => true) (fun _ _ => "C")
    (fun _ pool n hn => by simp [takeSample]; omega)
    (by decide) courseB (by simp)
  ⟨h.1, h.2.1⟩

/-! ## Rounding

Python's `round` rounds to the nearest integer with ties to even;
`round(x, 2)` likewise at two decimal places. Only monotonicity-style
bounds are used in the proofs, for which the tie-breaking rule is
irrelevant. -/

/-- The floor of a rational, in directly computable form. -/
def pyfloor (q : ℚ) : ℤ := q.num / q.den

lemma pyfloor_eq (q : ℚ) : pyfloor q = ⌊q⌋ := Rat.floor_def.symm

/-- Python's `round` to an integer: nearest, ties to even. -/
def pyround (q : ℚ) : ℤ :=
  if q - pyfloor q < 1/2 then pyfloor q
  else if 1/2 < q - pyfloor q then pyfloor q + 1
  else if pyfloor q % 2 = 0 then pyfloor q else pyfloor q + 1

/-- Python's `round(x, 2)`. -/
def pyround2 (q : ℚ) : ℚ :=
  (pyround (q * 100) : ℚ) / 100

lemma pyround_bounds (q : ℚ) : ⌊q⌋ ≤ pyround q ∧ pyround q ≤ ⌈q⌉ := by
  have hfc : ⌊q⌋ ≤ ⌈q⌉ := Int.floor_le_ceil q
  unfold pyround
  rw [pyfloor_eq]
  by_cases h1 : q - ⌊q⌋ < 1/2
  · rw [if_pos h1]
    exact ⟨le_refl _, hfc⟩
  · have hlt : (⌊q⌋ : ℚ) < q := by
      have : (1 : ℚ)/2 ≤ q - ⌊q⌋ := le_of_not_lt h1
      linarith
    have hceil : ⌊q⌋ + 1 ≤ ⌈q⌉ := by
      have h2 : (⌊q⌋ : ℚ) < (⌈q⌉ : ℚ) := lt_of_lt_of_le hlt (Int.le_ceil q)
      exact Int.add_one_le_iff.mpr (by exact_mod_cast h2)
    rw [if_neg h1]
    by_cases h2 : (1 : ℚ)/2 < q - ⌊q⌋
    · rw [if_pos h2]
      exact ⟨by omega, hceil⟩
    · rw [if_neg h2]
      by_cases h3 : ⌊q⌋ % 2 = 0
      · rw [if_pos h3]
        exact ⟨le_refl _, hfc⟩
      · rw [if_neg h3]
        exact ⟨by omega, hceil⟩

/-- Two-decimal rounding keeps a value between two-decimal endpoints. -/
lemma pyround2_bounds {a b : ℤ} {q : ℚ} (ha : (a : ℚ)/100 ≤ q)
    (hb : q ≤ (b : ℚ)/100) :
    (a : ℚ)/100 ≤ pyround2 q ∧ pyround2 q ≤ (b : ℚ)/100 := by
  have h1 : (a : ℚ) ≤ q * 100 := by linarith
  have h2 : q * 100 ≤ (b : ℚ) := by linarith
  have hf : a ≤ ⌊q * 100⌋ := Int.le_floor.mpr h1
  have hc : ⌈q * 100⌉ ≤ b := Int.ceil_le.mpr h2
  obtain ⟨hl, hr⟩ := pyround_bounds (q * 100)
  constructor
  · rw [pyround2]
    have : (a : ℚ) ≤ (pyround (q * 100) : ℚ) := by exact_mod_cast by omega
    linarith
  · rw [pyround2]
    have : ((pyround (q * 100) : ℚ)) ≤ (b : ℚ) := by exact_mod_cast by omega
    linarith

/-! ## Enrollment history simulator (`generate_student_course_history`) -/

/-- A student as produced by `generate_students` (the fields the simulator
and similarity builder read); `daysEnrolled` models
`(now - enrollment_date).days`. -/
structure Student where
  id : String
  learningStyle : String
  preferredCourseLoad : Nat
  preferredPace : String
  preferredInstructionMode : String
  daysEnrolled : Nat
deriving DecidableEq, Repr

/-- One COMPLETED/ENROLLED_IN record. `enrolled = true` models membership
of the ENROLLED_IN output list (which carries no grade/difficulty payload),
`enrolled = false` a COMPLETED record. The randomly sampled payload fields
(grade, time spent, instruction mode) are independent draws that do not
feed back into the walk; the deterministic perceived-difficulty payload is
carried here. -/
structure HRecord where
  studentId : String
  courseId : String
  term : Term
  termIdx : Nat
  enrolled : Bool
  difficulty : Option ℤ
deriving DecidableEq, Repr

/-- The prerequisite graph `prereq_graph[target] = [sources...]`. -/
def prereqGraph (prereqs : List PrereqEdge) (cid : String) : List String :=
  (prereqs.filter (fun p => p.target = cid)).map PrereqEdge.source

/-- `terms_enrolled`, clamped to the term window and to at least 1. -/
def enrolledTermCount (daysEnrolled : Nat) : Nat :=
  let t := min TERMS_TO_GENERATE (daysEnrolled / 120)
  if t = 0 then 1 else t

/-- The trailing `terms_enrolled` terms, in chronological order
(`range(max(0, len(terms) - terms_enrolled), len(terms))`). -/
def studentTerms (terms : List Term) (daysEnrolled : Nat) : List Term :=
  terms.drop (terms.length - enrolledTermCount daysEnrolled)

/-- The learning-style match modifier (deterministic); a missing success
key (filler courses) contributes 0, as in the Python `in` checks. -/
def styleMatchModifier (s : Student) (c : Course) : ℚ :=
  if s.learningStyle = "Visual" then
    match c.visualLearnerSuccess with
    | some v => (v - 8/10) * 2
    | none => 0
  else if s.learningStyle = "Auditory" then
    match c.auditoryLearnerSuccess with
    | some v => (v - 8/10) * 2
    | none => 0
  else if s.learningStyle = "Kinesthetic" then
    match c.kinestheticLearnerSuccess with
    | some v => (v - 8/10) * 2
    | none => 0
  else if s.learningStyle = "Reading-Writing" then
    match c.readingLearnerSuccess with
    | some v => (v - 8/10) * 2
    | none => 0
  else 0

/-- `perceived_difficulty = max(1, min(5, round(base - modifier)))`. -/
def perceivedDifficulty (s : Student) (c : Course) : ℤ :=
  max 1 (min 5 (pyround ((c.avgDifficulty : ℚ) - styleMatchModifier s c)))

lemma perceivedDifficulty_bounds (s : Student) (c : Course) :
    1 ≤ perceivedDifficulty s c ∧ perceivedDifficulty s c ≤ 5 := by
  rw [perceivedDifficulty]
  omega

/-- The per-term candidate pool: courses offered in the term's season and
not yet taken, filtered to those whose prerequisites are all taken, falling
back to the prerequisite-free candidates when that filter empties. -/
def validPool (courses : List Course) (pg : String → List String)
    (taken : List String) (t : Term) : List Course :=
  let potential := courses.filter
    (fun c => t.season ∈ c.termAvailability ∧ c.id ∉ taken)
  let valid := potential.filter
    (fun c => (pg c.id).all (fun p => p ∈ taken))
  if valid.isEmpty then potential.filter (fun c => (pg c.id).isEmpty)
  else valid

/-- The record emitted for a chosen course in a term: an ENROLLED_IN
record (no payload) when the term is the current term, a COMPLETED record
otherwise. -/
def mkHRecord (s : Student) (currentTerm t : Term) (i : Nat)
    (c : Course) : HRecord :=
  { studentId := s.id, courseId := c.id, term := t, termIdx := i,
    enrolled := decide (t = currentTerm),
    difficulty := if t = currentTerm then none
      else some (perceivedDifficulty s c) }

/-- The per-student term walk. `pick i pool` models
`random.sample(valid_courses, min(num_courses, len(valid_courses)))` at
term index `i`; the `taken` accumulator grows by the chosen course ids. -/
def walk (courses : List Course) (pg : String → List String)
    (currentTerm : Term) (pick : Nat → List Course → List Course)
    (s : Student) : List Term → Nat → List String → List HRecord
  | [], _, _ => []
  | t :: rest, i, taken =>
    let chosen := pick i (validPool courses pg taken t)
    (chosen.map (mkHRecord s currentTerm t i)) ++
      walk courses pg currentTerm pick s rest (i + 1)
        (taken ++ chosen.map Course.id)

/-- `generate_student_course_history`: one walk per student over that
student's trailing terms, starting from an empty taken set. -/
def generateStudentCourseHistory (students : List Student)
    (courses : List Course) (terms : List Term) (prereqs : List PrereqEdge)
    (currentTerm : Term)
    (pick : String → Nat → List Course → List Course) : List HRecord :=
  students.flatMap (fun s =>
    walk courses (prereqGraph prereqs) currentTerm (pick s.id) s
      (studentTerms terms s.daysEnrolled) 0 [])

lemma mem_validPool {c : Course} {courses : List Course}
    {pg : String → List String} {taken : List String} {t : Term}
    (h : c ∈ validPool courses pg taken t) :
    c ∈ courses ∧ t.season ∈ c.termAvailability ∧ c.id ∉ taken := by
  rw [validPool] at h
  split at h <;>
  · rw [List.mem_filter] at h
    have h1 := h.1
    rw [List.mem_filter] at h1
    refine ⟨h1.1, ?_⟩
    have := h1.2
    simp only [decide_eq_true_eq, Bool.and_eq_true, decide_not,
      Bool.not_eq_true'] at this
    constructor
    · exact this.1
    · simpa using this.2

lemma validPool_prereqs {c : Course} {courses : List Course}
    {pg : String → List String} {taken : List String} {t : Term}
    (h : c ∈ validPool courses pg taken t) :
    (∀ p ∈ pg c.id, p ∈ taken) ∨ pg c.id = [] := by
  rw [validPool] at h
  split at h
  · right
    rw [List.mem_filter] at h
    simpa using h.2
  · left
    rw [List.mem_filter] at h
    have := h.2
    simp only [List.all_eq_true, decide_eq_true_eq] at this
    exact this

/-- Field-level facts about every emitted record. -/
lemma walk_basic (courses : List Course) (pg : String → List String)
    (ct : Term) (pick : Nat → List Course → List Course) (s : Student) :
    ∀ ts i tk, ∀ r ∈ walk courses pg ct pick s ts i tk,
      r.studentId = s.id ∧ r.term ∈ ts ∧
        r.enrolled = decide (r.term = ct) ∧
        ∀ d, r.difficulty = some d → ∃ c, d = perceivedDifficulty s c := by
  intro ts
  induction ts with
  | nil => intro i tk r hr; cases hr
  | cons t rest ih =>
    intro i tk r hr
    rw [walk, List.mem_append] at hr
    rcases hr with hr | hr
    · rw [List.mem_map] at hr
      obtain ⟨c, hc, rfl⟩ := hr
      refine ⟨rfl, by simp [mkHRecord], rfl, ?_⟩
      intro d hd
      by_cases hct : t = ct
      · simp [mkHRecord, hct] at hd
      · simp only [mkHRecord, if_neg hct] at hd
        exact ⟨c, by injection hd with h; exact h.symm⟩
    · obtain ⟨h1, h2, h3, h4⟩ := ih (i + 1) (tk ++ _) r hr
      exact ⟨h1, List.mem_cons_of_mem _ h2, h3, h4⟩

/-- C5: with the pipeline's term list and current term, a record is an
ENROLLED_IN record exactly when its term equals the current term
(`get_term_by_date(now)`); since the capped term window stops the year
before the current one, no ENROLLED_IN record occurs at all — in
particular none pointing at any term other than the chronologically last
generated one. -/
theorem enrolled_iff_current_term (students : List Student)
    (courses : List Course) (prereqs : List PrereqEdge)
    (nowMonth nowYear : Int)
    (pick : String → Nat → List Course → List Course) :
    ∀ r ∈ generateStudentCourseHistory students courses
        (generateTerms nowYear) prereqs (getTermByDate nowMonth nowYear)
        pick,
      (r.enrolled = true ↔ r.term = getTermByDate nowMonth nowYear) ∧
        r.enrolled = false := by
  intro r hr
  rw [generateStudentCourseHistory, List.mem_flatMap] at hr
  obtain ⟨s, _, hrs⟩ := hr
  obtain ⟨_, hterm, henr, _⟩ := walk_basic courses (prereqGraph prereqs)
    (getTermByDate nowMonth nowYear) (pick s.id) s _ 0 [] r hrs
  have hne : r.term ≠ getTermByDate nowMonth nowYear := by
    intro heq
    have hsub : r.term ∈ generateTerms nowYear :=
      List.drop_subset _ _ hterm
    rw [heq] at hsub
    exact currentTerm_not_mem_generateTerms nowMonth nowYear hsub
  have hfalse : r.enrolled = false := by
    rw [henr, decide_eq_false_iff_not]
    exact hne
  refine ⟨⟨fun h => absurd (hfalse ▸ h) (by simp), fun h => absurd h hne⟩,
    hfalse⟩

/-! ## C10: at most one record per (student, course) pair -/

lemma filter_map_id_nodup {l : List Course}
    (h : (l.map Course.id).Nodup) (p : Course → Bool) :
    ((l.filter p).map Course.id).Nodup :=
  List.Nodup.sublist (List.Sublist.map Course.id (List.filter_sublist l)) h

lemma validPool_ids_nodup {courses : List Course} {pg : String → List String}
    {taken : List String} {t : Term}
    (h : (courses.map Course.id).Nodup) :
    ((validPool courses pg taken t).map Course.id).Nodup := by
  rw [validPool]
  split <;> exact filter_map_id_nodup (filter_map_id_nodup h _) _

/-- The taken-set discipline of the walk: emitted course ids are pairwise
distinct and never lie in the incoming taken set. -/
lemma walk_nodup (courses : List Course) (pg : String → List String)
    (ct : Term) (pick : Nat → List Course → List Course) (s : Student)
    (hpick : ∀ i pool, ∃ sub, List.Sublist sub pool ∧
      (pick i pool).Perm sub)
    (hcids : (courses.map Course.id).Nodup) :
    ∀ ts i tk,
      ((walk courses pg ct pick s ts i tk).map HRecord.courseId).Nodup ∧
        ∀ r ∈ walk courses pg ct pick s ts i tk, r.courseId ∉ tk := by
  intro ts
  induction ts with
  | nil =>
    intro i tk
    exact ⟨by simp [walk], by intro r hr; cases hr⟩
  | cons t rest ih =>
    intro i tk
    obtain ⟨sub, hsub, hperm⟩ := hpick i (validPool courses pg tk t)
    have hchosen_pool : ∀ c ∈ pick i (validPool courses pg tk t),
        c ∈ validPool courses pg tk t :=
      fun c hc => hsub.subset (hperm.subset hc)
    have hchosen_ids :
        ((pick i (validPool courses pg tk t)).map Course.id).Nodup := by
      have h1 : (sub.map Course.id).Nodup :=
        List.Nodup.sublist (hsub.map Course.id) (validPool_ids_nodup hcids)
      exact ((hperm.map Course.id).nodup_iff).mpr h1
    obtain ⟨ihn, ihtk⟩ := ih (i + 1)
      (tk ++ (pick i (validPool courses pg tk t)).map Course.id)
    have hmapfst :
        ((pick i (validPool courses pg tk t)).map
          (mkHRecord s ct t i)).map HRecord.courseId =
        (pick i (validPool courses pg tk t)).map Course.id := by
      rw [List.map_map]
      rfl
    constructor
    · rw [walk, List.map_append, List.nodup_append]
      refine ⟨by rw [hmapfst]; exact hchosen_ids, ihn, ?_⟩
      intro a ha hb
      rw [hmapfst] at ha
      rw [List.mem_map] at hb
      obtain ⟨r, hr, rfl⟩ := hb
      exact (ihtk r hr) (List.mem_append_right _ ha)
    · intro r hr
      rw [walk, List.mem_append] at hr
      rcases hr with hr | hr
      · rw [List.mem_map] at hr
        obtain ⟨c, hc, rfl⟩ := hr
        exact (mem_validPool (hchosen_pool c hc)).2.2
      · intro hmem
        exact (ihtk r hr) (List.mem_append_left _ hmem)

lemma nodup_map_pair {l : List HRecord}
    (h : (l.map HRecord.courseId).Nodup) :
    (l.map (fun r => (r.studentId, r.courseId))).Nodup := by
  refine List.Nodup.of_map Prod.snd ?_
  rw [List.map_map]
  exact h

/-- C10: across the COMPLETED and ENROLLED_IN outputs combined, each
(student, course) pair occurs at most once. -/
theorem history_at_most_one_record_per_pair (students : List Student)
    (courses : List Course) (terms : List Term) (prereqs : List PrereqEdge)
    (ct : Term) (pick : String → Nat → List Course → List Course)
    (hpick : ∀ sid i pool, ∃ sub, List.Sublist sub pool ∧
      (pick sid i pool).Perm sub)
    (hcids : (courses.map Course.id).Nodup)
    (hsids : (students.map Student.id).Nodup) :
    ((generateStudentCourseHistory students courses terms prereqs ct
      pick).map (fun r => (r.studentId, r.courseId))).Nodup := by
  rw [generateStudentCourseHistory]
  induction students with
  | nil => simp
  | cons s rest ih =>
    rw [List.map_cons, List.nodup_cons] at hsids
    rw [List.flatMap_cons, List.map_append, List.nodup_append]
    refine ⟨?_, ih hsids.2, ?_⟩
    · exact nodup_map_pair (walk_nodup courses (prereqGraph prereqs) ct
        (pick s.id) s (hpick s.id) hcids _ 0 []).1
    · intro a ha hb
      rw [List.mem_map] at ha hb
      obtain ⟨r, hr, rfl⟩ := ha
      obtain ⟨r', hr', heq⟩ := hb
      have h1 : r.studentId = s.id :=
        (walk_basic courses (prereqGraph prereqs) ct (pick s.id) s _ 0 []
          r hr).1
      rw [List.mem_flatMap] at hr'
      obtain ⟨s', hs', hrs'⟩ := hr'
      have h2 : r'.studentId = s'.id :=
        (walk_basic courses (prereqGraph prereqs) ct (pick s'.id) s' _ 0
          [] r' hrs').1
      have : s.id = s'.id := by
        have := congrArg Prod.fst heq
        simp only at this
        rw [h2, h1] at this
        exact this.symm
      exact hsids.1 (this ▸ List.mem_map_of_mem Student.id hs')

theorem history_at_most_one_record_per_pair_witness :
    ((generateStudentCourseHistory
        [⟨"AB12345", "Visual", 3, "Standard", "In-person", 400⟩]
        [courseA, courseB] (generateTerms 2025) []
        (getTermByDate 10 2025) (fun _ _ pool => pool.take 1)).map
      (fun r => (r.studentId, r.courseId))).Nodup :=
  history_at_most_one_record_per_pair _ _ _ _ _ _
    (fun _ _ pool => ⟨pool.take 1, List.take_sublist 1 pool,
      List.Perm.refl _⟩)
    (by decide) (by decide)

/-! ## C2: prerequisites are completed in strictly earlier terms -/

/-- The walk's causal invariant: provided the taken set is exactly the
course ids of an already-emitted history of strictly earlier COMPLETED
records, and the current term does not occur among the remaining terms,
every emitted record is COMPLETED and each of its prerequisites was
COMPLETED by the same walk (or the history) in a strictly earlier term. -/
lemma walk_causal (courses : List Course) (pg : String → List String)
    (ct : Term) (pick : Nat → List Course → List Course) (s : Student)
    (hpick : ∀ i pool, ∀ c ∈ pick i pool, c ∈ pool) :
    ∀ (ts : List Term) (i : Nat) (tk : List String)
      (hist : List HRecord),
      (∀ cid, cid ∈ tk → ∃ r ∈ hist, r.courseId = cid) →
      (∀ r ∈ hist, ∀ t ∈ ts, r.term.startKey < t.startKey) →
      (∀ r ∈ hist, r.enrolled = false) →
      List.Pairwise (fun a b : Term => a.startKey < b.startKey) ts →
      ct ∉ ts →
      ∀ r ∈ walk courses pg ct pick s ts i tk,
        r.enrolled = false ∧
        ∀ p ∈ pg r.courseId,
          ∃ r', (r' ∈ hist ∨ r' ∈ walk courses pg ct pick s ts i tk) ∧
            r'.courseId = p ∧ r'.enrolled = false ∧
            r'.term.startKey < r.term.startKey := by
  intro ts
  induction ts with
  | nil => intro i tk hist _ _ _ _ _ r hr; cases hr
  | cons t rest ih =>
    intro i tk hist htk hhist hhistc hch hct r hr
    have hctt : t ≠ ct := fun h => hct (h ▸ List.mem_cons_self t rest)
    rw [walk, List.mem_append] at hr
    rcases hr with hrec | hrest
    · rw [List.mem_map] at hrec
      obtain ⟨c, hc, rfl⟩ := hrec
      have hcpool := hpick i _ c hc
      refine ⟨by simp [mkHRecord, hctt], ?_⟩
      intro p hp
      have hcid : (mkHRecord s ct t i c).courseId = c.id := rfl
      rw [hcid] at hp
      rcases validPool_prereqs hcpool with hall | hnone
      · obtain ⟨r', hr', hrc⟩ := htk p (hall p hp)
        exact ⟨r', Or.inl hr', hrc, hhistc r' hr',
          hhist r' hr' t (List.mem_cons_self t rest)⟩
      · rw [hnone] at hp
        cases hp
    · have hrecsid : ∀ r' ∈ (pick i (validPool courses pg tk t)).map
          (mkHRecord s ct t i), r'.term = t ∧ r'.enrolled = false := by
        intro r' hr'
        rw [List.mem_map] at hr'
        obtain ⟨c, _, rfl⟩ := hr'
        exact ⟨rfl, by simp [mkHRecord, hctt]⟩
      have ihres := ih (i + 1)
        (tk ++ (pick i (validPool courses pg tk t)).map Course.id)
        (hist ++ (pick i (validPool courses pg tk t)).map
          (mkHRecord s ct t i))
        (by
          intro cid hcid
          rcases List.mem_append.mp hcid with h | h
          · obtain ⟨r', hr', hrc⟩ := htk cid h
            exact ⟨r', List.mem_append_left _ hr', hrc⟩
          · rw [List.mem_map] at h
            obtain ⟨c, hc, rfl⟩ := h
            exact ⟨_, List.mem_append_right _
              (List.mem_map_of_mem _ hc), rfl⟩)
        (by
          intro r' hr' t' ht'
          rcases List.mem_append.mp hr' with h | h
          · exact hhist r' h t' (List.mem_cons_of_mem _ ht')
          · rw [(hrecsid r' h).1]
            exact (List.pairwise_cons.mp hch).1 t' ht')
        (by
          intro r' hr'
          rcases List.mem_append.mp hr' with h | h
          · exact hhistc r' h
          · exact (hrecsid r' h).2)
        ((List.pairwise_cons.mp hch).2)
        (fun h => hct (List.mem_cons_of_mem _ h))
        r hrest
      refine ⟨ihres.1, ?_⟩
      intro p hp
      obtain ⟨r', hr', hrc, hre, hrt⟩ := ihres.2 p hp
      refine ⟨r', ?_, hrc, hre, hrt⟩
      rcases hr' with h | h
      · rcases List.mem_append.mp h with h' | h'
        · exact Or.inl h'
        · exact Or.inr (by rw [walk]; exact List.mem_append_left _ h')
      · exact Or.inr (by rw [walk]; exact List.mem_append_right _ h)

/-- C2: in the generated history (with the pipeline's term list and current
term), for every COMPLETED record of a course C, every course with a
PREREQUISITE_FOR edge into C also has a COMPLETED record from the same
student in a strictly earlier term; if C has no prerequisites (the relaxed
fallback case) the statement is vacuous. -/
theorem completed_implies_prereqs_completed_earlier
    (students : List Student) (courses : List Course)
    (prereqs : List PrereqEdge) (nowMonth nowYear : Int)
    (pick : String → Nat → List Course → List Course)
    (hpick : ∀ sid i pool, ∀ c ∈ pick sid i pool, c ∈ pool) :
    ∀ r ∈ generateStudentCourseHistory students courses
        (generateTerms nowYear) prereqs (getTermByDate nowMonth nowYear)
        pick,
      r.enrolled = false →
      ∀ e ∈ prereqs, e.target = r.courseId →
        ∃ r' ∈ generateStudentCourseHistory students courses
            (generateTerms nowYear) prereqs
            (getTermByDate nowMonth nowYear) pick,
          r'.studentId = r.studentId ∧ r'.courseId = e.source ∧
            r'.enrolled = false ∧
            r'.term.startKey < r.term.startKey := by
  intro r hr _ e he het
  rw [generateStudentCourseHistory, List.mem_flatMap] at hr
  obtain ⟨s, hs, hrs⟩ := hr
  have hch : List.Pairwise (fun a b : Term => a.startKey < b.startKey)
      (studentTerms (generateTerms nowYear) s.daysEnrolled) := by
    rw [studentTerms]
    exact List.Pairwise.sublist (List.drop_sublist _ _)
      (generateTerms_pairwise nowYear)
  have hct : getTermByDate nowMonth nowYear ∉
      studentTerms (generateTerms nowYear) s.daysEnrolled := by
    intro h
    rw [studentTerms] at h
    exact currentTerm_not_mem_generateTerms nowMonth nowYear
      (List.drop_subset _ _ h)
  have hc := walk_causal courses (prereqGraph prereqs)
    (getTermByDate nowMonth nowYear) (pick s.id) s (hpick s.id)
    (studentTerms (generateTerms nowYear) s.daysEnrolled) 0 [] []
    (by intro cid h; cases h) (by intro r' h; cases h)
    (by intro r' h; cases h) hch hct r hrs
  have hp : e.source ∈ prereqGraph prereqs r.courseId := by
    rw [prereqGraph]
    exact List.mem_map_of_mem _ (List.mem_filter.mpr ⟨he, by simp [het]⟩)
  obtain ⟨r', hr', hrc, hre, hrt⟩ := hc.2 e.source hp
  rcases hr' with h | h
  · cases h
  · refine ⟨r', ?_, ?_, hrc, hre, hrt⟩
    · rw [generateStudentCourseHistory, List.mem_flatMap]
      exact ⟨s, hs, h⟩
    · rw [(walk_basic courses (prereqGraph prereqs)
          (getTermByDate nowMonth nowYear) (pick s.id) s _ 0 [] r'
          h).1,
        (walk_basic courses (prereqGraph prereqs)
          (getTermByDate nowMonth nowYear) (pick s.id) s _ 0 [] r
          hrs).1]

def wStudent : Student := ⟨"AB12345", "Visual", 3, "Standard", "In-person", 400⟩

def wEdge : PrereqEdge := ⟨"CMSC 100", "CMSC 200", "Required", "C"⟩

/-- The COMPLETED record the witness instantiates C2 at: `wStudent` takes
`courseA` in Spring 2024 and `courseB` (whose prerequisite is `courseA`)
in Fall 2024. -/
def wRecordB : HRecord :=
  ⟨"AB12345", "CMSC 200", ⟨.fall, 2024⟩, 2, false, some 3⟩

lemma wHistory_eq :
    generateStudentCourseHistory [wStudent] [courseA, courseB]
        (generateTerms 2025) [wEdge] (getTermByDate 10 2025)
        (fun _ _ pool => pool.take 1) =
      [⟨"AB12345", "CMSC 100", ⟨.spring, 2024⟩, 0, false, some 3⟩,
        wRecordB] := by
  have hct : getTermByDate 10 2025 = ⟨.fall, 2025⟩ := by
    norm_num [getTermByDate]
  have hpd1 : perceivedDifficulty wStudent courseA = 3 := by
    norm_num [perceivedDifficulty, styleMatchModifier, pyround, pyfloor,
      wStudent, courseA]
  have hpd2 : perceivedDifficulty wStudent courseB = 3 := by
    norm_num [perceivedDifficulty, styleMatchModifier, pyround, pyfloor,
      wStudent, courseB]
  have hterms : studentTerms (generateTerms 2025) 400 =
      [⟨.spring, 2024⟩, ⟨.summer, 2024⟩, ⟨.fall, 2024⟩] := by
    rw [generateTerms_eq]
    norm_num [studentTerms, enrolledTermCount, TERMS_TO_GENERATE]
  have hv1 : validPool [courseA, courseB] (prereqGraph [wEdge]) []
      ⟨Season.spring, 2024⟩ = [courseA] := by
    simp +decide [validPool, prereqGraph, courseA, courseB, wEdge]
  have hv2 : validPool [courseA, courseB] (prereqGraph [wEdge])
      ["CMSC 100"] ⟨Season.summer, 2024⟩ = [] := by
    simp +decide [validPool, prereqGraph, courseA, courseB, wEdge]
  have hv3 : validPool [courseA, courseB] (prereqGraph [wEdge])
      ["CMSC 100"] ⟨Season.fall, 2024⟩ = [courseB] := by
    simp +decide [validPool, prereqGraph, courseA, courseB, wEdge]
  have hidA : courseA.id = "CMSC 100" := rfl
  have hdays : wStudent.daysEnrolled = 400 := rfl
  rw [generateStudentCourseHistory]
  simp only [List.flatMap_cons, List.flatMap_nil, List.append_nil, hdays]
  rw [hterms, hct]
  rw [walk, hv1]
  simp only [List.take_succ_cons, List.take_zero, List.map_cons,
    List.map_nil, List.nil_append, hidA]
  rw [walk, hv2]
  simp only [List.take_nil, List.map_nil, List.append_nil, List.nil_append]
  rw [walk, hv3]
  simp only [List.take_succ_cons, List.take_zero, List.map_cons,
    List.map_nil]
  rw [walk]
  simp +decide [mkHRecord, hpd1, hpd2, wRecordB]

theorem completed_prereqs_witness :
    ∃ r' ∈ generateStudentCourseHistory [wStudent] [courseA, courseB]
        (generateTerms 2025) [wEdge] (getTermByDate 10 2025)
        (fun _ _ pool => pool.take 1),
      r'.studentId = wRecordB.studentId ∧ r'.courseId = wEdge.source ∧
        r'.enrolled = false ∧ r'.term.startKey < wRecordB.term.startKey :=
  completed_implies_prereqs_completed_earlier [wStudent]
    [courseA, courseB] [wEdge] 10 2025 (fun _ _ pool => pool.take 1)
    (fun _ _ pool c hc => List.mem_of_mem_take hc)
    wRecordB (by rw [wHistory_eq]; simp [wRecordB]) rfl
    wEdge (by simp) rfl

/-! ## Degree assembler (`generate_degrees`): requirement groups (C4) -/

/-- A RequirementGroup row. `reqType` records the `req_type` the Python
code embeds into the group's id/name ("Core" for the core group, otherwise
the sampled Elective/Concentration/Specialization/Distribution kind). -/
structure ReqGroup where
  id : String
  name : String
  description : String
  reqType : String
  minimumCourses : Nat
  minimumCredits : Nat
  degreeId : String
  courses : List String
deriving DecidableEq, Repr

/-- `level_weights.get(level, 0.3)`. -/
def levelWeight (l : Nat) : ℚ :=
  if l = 100 then 2/10
  else if l = 200 then 3/10
  else if l = 300 then 4/10
  else if l = 400 then 5/10
  else if l = 600 then 6/10
  else if l = 700 then 7/10
  else 3/10

/-- The core-course selection walk over the level-sorted list: course at
position `i` is included when `u i < levelWeight level` (the
`random.random() < weight` draw) and the cap is not yet reached. -/
def selectCore (u : Nat → ℚ) (target : Nat) :
    List Course → Nat → List Course → List Course
  | [], _, acc => acc
  | c :: rest, i, acc =>
      selectCore u target rest (i + 1)
        (if u i < levelWeight c.level ∧ acc.length < target then acc ++ [c]
         else acc)

/-- `generate_degrees`, requirement-group part for one degree: the core
group from the level-sorted available pool, then `numGroups - 1`
additional groups sampled from the remaining pool. Oracles: `coreU` for
the per-course inclusion draws, `typePick j` for `random.choice` of the
group kind, `nreqOf j` for `random.randint(3, 8)`, `sample` for
`random.sample`, `rint j a b` for `random.randint(a, b)`. -/
def degreeRequirementGroups (availableCourses : List Course)
    (degreeId dept degreeName : String) (numGroups : Nat)
    (coreU : Nat → ℚ) (typePick : Nat → String) (nreqOf : Nat → Nat)
    (sample : Nat → List Course → Nat → List Course)
    (rint : Nat → Nat → Nat → Nat) : List ReqGroup :=
  let sortedByLevel :=
    availableCourses.mergeSort (fun a b => a.level ≤ b.level)
  let target := min 20 (availableCourses.length / 2)
  let coreCourses := selectCore coreU target sortedByLevel 0 []
  let core : ReqGroup :=
    { id := "REQ-CORE-" ++ degreeId,
      name := "Core " ++ dept ++ " Requirements",
      description := "Required courses for " ++ degreeName,
      reqType := "Core",
      minimumCourses := coreCourses.length,
      minimumCredits := (coreCourses.map Course.credits).sum,
      degreeId := degreeId,
      courses := coreCourses.map Course.id }
  let remaining := availableCourses.filter (fun c => c ∉ coreCourses)
  core :: (List.range (numGroups - 1)).map (fun j =>
    let reqType := typePick j
    let reqCourses :=
      if remaining.isEmpty then []
      else sample j remaining (min (nreqOf j) remaining.length)
    let mc := rint j 1 (max 1 (reqCourses.length - 1))
    { id := "REQ-" ++ reqType.toUpper ++ "-" ++ toString (j + 1) ++ "-" ++
        degreeId,
      name := dept ++ " " ++ reqType ++ " Requirements - Group " ++
        toString (j + 1),
      description := reqType ++ " courses for " ++ degreeName,
      reqType := reqType,
      minimumCourses := mc,
      minimumCredits := mc * 3,
      degreeId := degreeId,
      courses := reqCourses.map Course.id })

lemma selectCore_length_le (u : Nat → ℚ) (target : Nat) :
    ∀ (l : List Course) (i : Nat) (acc : List Course),
      acc.length ≤ target →
      (selectCore u target l i acc).length ≤ target := by
  intro l
  induction l with
  | nil => intro i acc h; exact h
  | cons c rest ih =>
    intro i acc h
    rw [selectCore]
    split
    · rename_i hguard
      have h2 := hguard.2
      exact ih (i + 1) _
        (by simp only [List.length_append, List.length_singleton]; omega)
    · exact ih (i + 1) acc h

/-- For a duplicate-free list, filtering out the members of a short list
removes at most that many elements. -/
lemma length_filter_not_mem_ge (l core : List Course) (hnd : l.Nodup) :
    l.length - core.length ≤
      (l.filter (fun c => c ∉ core)).length := by
  have hsplit :=
    @List.length_eq_length_filter_add _ l (fun c => decide (c ∉ core))
  have hsub : (l.filter (fun c => !decide (c ∉ core))) ⊆ core := by
    intro x hx
    have hmem := (List.mem_filter.mp hx).2
    simpa using hmem
  have hnd2 : (l.filter (fun c => !decide (c ∉ core))).Nodup :=
    hnd.filter _
  have hle : (l.filter (fun c => !decide (c ∉ core))).length ≤
      core.length := (hnd2.subperm hsub).length_le
  omega

/-- C4: every generated RequirementGroup's minimumCourses is at most the
size of its course set, and for the additional (non-core) groups it is
strictly smaller than the course-set size. -/
theorem requirement_group_minimums (availableCourses : List Course)
    (degreeId dept degreeName : String) (numGroups : Nat)
    (coreU : Nat → ℚ) (typePick : Nat → String) (nreqOf : Nat → Nat)
    (sample : Nat → List Course → Nat → List Course)
    (rint : Nat → Nat → Nat → Nat)
    (hsample : ∀ j l n, n ≤ l.length → (sample j l n).length = n)
    (hrint : ∀ j a b, a ≤ b → a ≤ rint j a b ∧ rint j a b ≤ b)
    (hnreq : ∀ j, 3 ≤ nreqOf j)
    (hnd : availableCourses.Nodup)
    (hlen : 5 ≤ availableCourses.length) :
    ∀ g ∈ degreeRequirementGroups availableCourses degreeId dept degreeName
        numGroups coreU typePick nreqOf sample rint,
      g.minimumCourses ≤ g.courses.length ∧
        (g.reqType ≠ "Core" → g.minimumCourses < g.courses.length) := by
  intro g hg
  rw [degreeRequirementGroups] at hg
  rcases List.mem_cons.mp hg with rfl | hmem
  · refine ⟨by rw [List.length_map], fun hne => absurd rfl hne⟩
  · rw [List.mem_map] at hmem
    obtain ⟨j, _, rfl⟩ := hmem
    have hcore : (selectCore coreU
        (min 20 (availableCourses.length / 2))
        (availableCourses.mergeSort (fun a b => a.level ≤ b.level)) 0
        []).length ≤ min 20 (availableCourses.length / 2) :=
      selectCore_length_le _ _ _ 0 [] (Nat.zero_le _)
    have hrem := length_filter_not_mem_ge availableCourses
      (selectCore coreU (min 20 (availableCourses.length / 2))
        (availableCourses.mergeSort (fun a b => a.level ≤ b.level)) 0 [])
      hnd
    set remaining := availableCourses.filter (fun c =>
      c ∉ selectCore coreU (min 20 (availableCourses.length / 2))
        (availableCourses.mergeSort (fun a b => a.level ≤ b.level)) 0 [])
      with hremdef
    have hremlen : 3 ≤ remaining.length := by omega
    have hne : remaining.isEmpty = false := by
      rcases h : remaining.isEmpty with _ | _
      · rfl
      · rw [List.isEmpty_iff] at h
        rw [h] at hremlen
        simp at hremlen
    rw [if_neg (by rw [hne]; exact Bool.false_ne_true)]
    have hreqlen : (sample j remaining
        (min (nreqOf j) remaining.length)).length =
        min (nreqOf j) remaining.length :=
      hsample j remaining _ (Nat.min_le_right _ _)
    have h2 : 2 ≤ (sample j remaining
        (min (nreqOf j) remaining.length)).length := by
      rw [hreqlen]
      have := hnreq j
      omega
    obtain ⟨hmc1, hmc2⟩ := hrint j 1
      (max 1 ((sample j remaining (min (nreqOf j) remaining.length)).length
        - 1)) (by omega)
    constructor
    · simp only [List.length_map]
      omega
    · intro _
      simp only [List.length_map]
      omega

/-- Five distinct level-100 Computer Science courses for the C4 witness. -/
def mkWCourse (n : String) : Course :=
  ⟨n, "Computer Science", 3, 100, 3, 6, [.fall, .spring], ["In-person"],
    [], none, none, none, none⟩

def wCourses : List Course :=
  [mkWCourse "C1", mkWCourse "C2", mkWCourse "C3", mkWCourse "C4",
    mkWCourse "C5"]

/-- The additional requirement group generated for the C4 witness
configuration. -/
def wGroup : ReqGroup :=
  ⟨"REQ-" ++ "Elective".toUpper ++ "-" ++ toString (1 : Nat) ++ "-" ++
      "D1",
    "Computer Science Elective Requirements - Group " ++
      toString (1 : Nat),
    "Elective courses for BS CS", "Elective", 1, 3, "D1",
    ["C1", "C2", "C3"]⟩

lemma wReqGroups_eq :
    degreeRequirementGroups wCourses "D1" "Computer Science" "BS CS" 2
        (fun _ => 1) (fun _ => "Elective") (fun _ => 3)
        (fun _ l n => l.take n) (fun _ a _ => a) =
      [⟨"REQ-CORE-D1", "Core Computer Science Requirements",
        "Required courses for BS CS", "Core", 0, 0, "D1", []⟩,
       wGroup] := by
  have hsort : wCourses.mergeSort (fun a b => a.level ≤ b.level) =
      wCourses :=
    List.mergeSort_of_sorted (by simp [wCourses, mkWCourse,
      List.pairwise_cons])
  have htarget : min 20 (wCourses.length / 2) = 2 := rfl
  have hsel : selectCore (fun _ => (1 : ℚ)) 2 wCourses 0 [] = [] := by
    norm_num [selectCore, levelWeight, wCourses, mkWCourse]
  rw [degreeRequirementGroups, htarget, hsort, hsel]
  simp +decide [wCourses, mkWCourse]
  rw [show List.range 1 = [0] from rfl]
  rfl

theorem requirement_group_minimums_witness :
    wGroup.minimumCourses ≤ wGroup.courses.length ∧
      (wGroup.reqType ≠ "Core" →
        wGroup.minimumCourses < wGroup.courses.length) :=
  requirement_group_minimums wCourses "D1" "Computer Science" "BS CS" 2
    (fun _ => 1) (fun _ => "Elective") (fun _ => 3)
    (fun _ l n => l.take n) (fun _ a _ => a)
    (fun _ l n hn => by simp [hn])
    (fun _ a b hab => ⟨le_refl a, hab⟩)
    (fun _ => le_refl 3) (by decide) (by decide)
    wGroup (by
      rw [wReqGroups_eq]
      exact List.mem_cons_of_mem _ (List.mem_cons_self _ _))

/-! ## Similarity graph builder (`generate_course_similarity`,
`generate_student_similarity`) and bounded payload values (C3, C9) -/

structure SimEdge where
  source : String
  target : String
  similarity : ℚ
deriving DecidableEq, Repr

/-- A Student→Student learning-style similarity edge. -/
structure SimPair where
  sourceId : String
  targetId : String
  similarity : ℚ
deriving DecidableEq, Repr

/-- A Student→Student performance similarity edge (with the shared course
list payload). -/
structure PerfEdge where
  sourceId : String
  targetId : String
  similarity : ℚ
  courses : List String
deriving DecidableEq, Repr

/-- A completed record as consumed by the similarity builder (the fields
`generate_student_similarity` reads from `completed_courses`). -/
structure CRec where
  studentId : String
  courseId : String
  grade : String
  difficulty : ℤ
deriving DecidableEq, Repr

def byDept (courses : List Course) (d : String) : List Course :=
  courses.filter (fun c => c.department = d)

def byTag (courses : List Course) (tg : String) : List Course :=
  courses.filter (fun c => tg ∈ c.tags)

/-- `len(set(course_tags) & set(similar_tags))`. -/
def sharedTagCount (c1 c2 : Course) : Nat :=
  ((c1.tags.dedup).filter (fun tg => tg ∈ c2.tags)).length

/-- Content-similarity edges for one course: same-department candidates
with a 10% coin and a Uniform(0.1, 0.8) score, then shared-tag candidates
(one iteration per shared-tag occurrence; the `seen_course_ids` set in the
source is dead code and filters nothing) with a 20% coin and a
tag-overlap-boosted score capped at 0.9. Oracles are indexed by iteration
position. -/
def contentEdgesFor (courses : List Course) (course : Course)
    (coin1 : Nat → Bool) (u1 : Nat → ℚ)
    (coin2 : Nat → Bool) (u2 : Nat → ℚ) : List SimEdge :=
  (byDept courses course.department).enum.filterMap (fun p =>
    if p.2.id ≠ course.id ∧ coin1 p.1 then
      some ⟨course.id, p.2.id, pyround2 (u1 p.1)⟩
    else none) ++
  (course.tags.flatMap (byTag courses)).enum.filterMap (fun p =>
    if p.2.id ≠ course.id ∧ coin2 p.1 then
      some ⟨course.id, p.2.id,
        pyround2 (min (9/10)
          (2/10 + (sharedTagCount course p.2 : ℚ) * (1/10) + u2 p.1))⟩
    else none)

/-- Difficulty-similarity edges for one course against a sampled subset,
restricted to pairs whose average difficulty differs by at most 1. -/
def difficultyEdgesFor (course : Course) (sampled : List Course) :
    List SimEdge :=
  sampled.filterMap (fun similar =>
    if similar.id ≠ course.id ∧
        (course.avgDifficulty - similar.avgDifficulty).natAbs ≤ 1 then
      some ⟨course.id, similar.id,
        pyround2 (1 -
          ((course.avgDifficulty - similar.avgDifficulty).natAbs : ℚ) / 5)⟩
    else none)

/-- `{(s, t): e for e in edges}.values()`: one edge per (source, target)
pair, last write wins. -/
def dedupPairs (l : List SimEdge) : List SimEdge :=
  ((l.map (fun e => (e.source, e.target))).dedup).filterMap (fun k =>
    l.reverse.find? (fun e => e.source = k.1 ∧ e.target = k.2))

def generateCourseSimilarity (courses : List Course)
    (coin1 : Nat → Nat → Bool) (u1 : Nat → Nat → ℚ)
    (coin2 : Nat → Nat → Bool) (u2 : Nat → Nat → ℚ)
    (sampleC : Nat → List Course) : List SimEdge × List SimEdge :=
  (dedupPairs (courses.enum.flatMap (fun p =>
      contentEdgesFor courses p.2 (coin1 p.1) (u1 p.1) (coin2 p.1)
        (u2 p.1))),
    dedupPairs (courses.enum.flatMap (fun p =>
      difficultyEdgesFor p.2 (sampleC p.1))))

/-- The learning-style similarity score: base 0.7, +0.1 for matching pace,
-0.02 per point of course-load difference, +0.1 for matching instruction
mode, plus Uniform(-0.1, 0.1) jitter `u`, clamped to [0.1, 1.0] and
rounded to two decimals. -/
def styleScore (student similar : Student) (u : ℚ) : ℚ :=
  let b1 : ℚ := 7/10
  let b2 := if similar.preferredPace = student.preferredPace then b1 + 1/10
    else b1
  let b3 := b2 - (((similar.preferredCourseLoad : ℤ) -
    (student.preferredCourseLoad : ℤ)).natAbs : ℚ) * (2/100)
  let b4 := if similar.preferredInstructionMode =
      student.preferredInstructionMode then b3 + 1/10 else b3
  pyround2 (max (1/10) (min 1 (b4 + u)))

/-- `grade_map.get(grade, 0)`. -/
def gradeVal (g : String) : ℚ :=
  if g = "A" then 4 else if g = "A-" then 37/10
  else if g = "B+" then 33/10 else if g = "B" then 3
  else if g = "B-" then 27/10 else if g = "C+" then 23/10
  else if g = "C" then 2 else if g = "C-" then 17/10
  else if g = "D+" then 13/10 else if g = "D" then 1
  else if g = "D-" then 7/10 else 0

/-- `student_courses[sid]` (the defaultdict grouping). -/
def recsOf (completed : List CRec) (sid : String) : List CRec :=
  completed.filter (fun c => c.studentId = sid)

/-- The key set of `{c["courseId"]: c for c in student_courses[sid]}`. -/
def takenCourseIds (completed : List CRec) (sid : String) : List String :=
  ((recsOf completed sid).map CRec.courseId).dedup

/-- The dict value for a key: the last record with that course id. -/
def takenRec (completed : List CRec) (sid cid : String) : Option CRec :=
  (recsOf completed sid).reverse.find? (fun c => c.courseId = cid)

/-- `common_courses`: the courses both students completed. -/
def sharedCourses (completed : List CRec) (sid1 sid2 : String) :
    List String :=
  (takenCourseIds completed sid1).filter
    (fun cid => cid ∈ takenCourseIds completed sid2)

def gradeOf (completed : List CRec) (sid cid : String) : ℚ :=
  match takenRec completed sid cid with
  | some r => gradeVal r.grade
  | none => 0

def diffOf (completed : List CRec) (sid cid : String) : ℚ :=
  match takenRec completed sid cid with
  | some r => (r.difficulty : ℚ)
  | none => 0

/-- `grade_similarity = max(0, 1 - avg_grade_diff / 4.0)` over the shared
course set. -/
def gradeAgreement (completed : List CRec) (sid1 sid2 : String) : ℚ :=
  let diffs := (sharedCourses completed sid1 sid2).map (fun cid =>
    |gradeOf completed sid1 cid - gradeOf completed sid2 cid|)
  max 0 (1 - (diffs.sum / (diffs.length : ℚ)) / 4)

/-- `diff_similarity = max(0, 1 - avg_diff_diff / 5.0)` over the shared
course set. -/
def difficultyAgreement (completed : List CRec) (sid1 sid2 : String) : ℚ :=
  let diffs := (sharedCourses completed sid1 sid2).map (fun cid =>
    |diffOf completed sid1 cid - diffOf completed sid2 cid|)
  max 0 (1 - (diffs.sum / (diffs.length : ℚ)) / 5)

/-- `round(grade_similarity * 0.7 + diff_similarity * 0.3, 2)`. -/
def perfScore (completed : List CRec) (sid1 sid2 : String) : ℚ :=
  pyround2 (gradeAgreement completed sid1 sid2 * (7/10) +
    difficultyAgreement completed sid1 sid2 * (3/10))

/-- `generate_student_similarity`. `sampleStyle i` models the sample of up
to 20 students drawn from the same-learning-style group of student `i`;
`jitter i j` the Uniform(-0.1, 0.1) draw for that pair. Performance
similarity is computed only for every 5th student index and only for
pairs sharing at least 3 completed courses. -/
def generateStudentSimilarity (students : List Student)
    (completed : List CRec) (sampleStyle : Nat → List Student)
    (jitter : Nat → Nat → ℚ) : List SimPair × List PerfEdge :=
  (students.enum.flatMap (fun p =>
      (sampleStyle p.1).enum.filterMap (fun q =>
        if q.2.id = p.2.id then none
        else some ⟨p.2.id, q.2.id, styleScore p.2 q.2 (jitter p.1 q.1)⟩)),
    students.enum.flatMap (fun p =>
      if p.1 % 5 = 0 then
        students.filterMap (fun other =>
          if other.id = p.2.id then none
          else
            if 3 ≤ (sharedCourses completed p.2.id other.id).length then
              some ⟨p.2.id, other.id, perfScore completed p.2.id other.id,
                sharedCourses completed p.2.id other.id⟩
            else none)
      else []))

/-- The credit-hours choice in `generate_courses`: 3 (70%), else 4 (20%),
else `random.choice([1, 2])`; the filler courses generated to reach
`NUM_COURSES` always get credits 3. -/
def creditsChoice (r1 r2 : Bool) (alt : Nat) : Nat :=
  if r1 then 3 else if r2 then 4 else alt

lemma dedupPairs_subset (l : List SimEdge) : ∀ e ∈ dedupPairs l, e ∈ l := by
  intro e he
  rw [dedupPairs, List.mem_filterMap] at he
  obtain ⟨k, _, hfind⟩ := he
  exact List.mem_reverse.mp (List.mem_of_find?_eq_some hfind)

lemma pyround2_unit {q : ℚ} (h0 : 0 ≤ q) (h1 : q ≤ 1) :
    0 ≤ pyround2 q ∧ pyround2 q ≤ 1 := by
  have h := pyround2_bounds (a := 0) (b := 100) (q := q)
    (by push_cast; linarith) (by push_cast; linarith)
  obtain ⟨hl, hr⟩ := h
  norm_num at hl hr
  exact ⟨hl, hr⟩

lemma avg_penalty_bounds (diffs : List ℚ) (h : ∀ d ∈ diffs, 0 ≤ d)
    (c : ℚ) :
    0 ≤ max 0 (1 - (diffs.sum / (diffs.length : ℚ)) / c) ∧
      max 0 (1 - (diffs.sum / (diffs.length : ℚ)) / c) ≤ 1 ∨ c ≤ 0 := by
  by_cases hc : 0 < c
  · left
    refine ⟨le_max_left _ _, ?_⟩
    have hsum : 0 ≤ diffs.sum := List.sum_nonneg h
    have hlen : (0 : ℚ) ≤ (diffs.length : ℚ) := Nat.cast_nonneg _
    have hq : 0 ≤ (diffs.sum / (diffs.length : ℚ)) / c :=
      div_nonneg (div_nonneg hsum hlen) (le_of_lt hc)
    exact max_le (by norm_num) (by linarith)
  · exact Or.inr (le_of_not_lt hc)

lemma gradeAgreement_bounds (completed : List CRec) (sid1 sid2 : String) :
    0 ≤ gradeAgreement completed sid1 sid2 ∧
      gradeAgreement completed sid1 sid2 ≤ 1 := by
  rw [gradeAgreement]
  have h := avg_penalty_bounds
    ((sharedCourses completed sid1 sid2).map (fun cid =>
      |gradeOf completed sid1 cid - gradeOf completed sid2 cid|))
    (by
      intro d hd
      rw [List.mem_map] at hd
      obtain ⟨cid, _, rfl⟩ := hd
      exact abs_nonneg _) 4
  rcases h with h | h
  · exact h
  · norm_num at h

lemma difficultyAgreement_bounds (completed : List CRec)
    (sid1 sid2 : String) :
    0 ≤ difficultyAgreement completed sid1 sid2 ∧
      difficultyAgreement completed sid1 sid2 ≤ 1 := by
  rw [difficultyAgreement]
  have h := avg_penalty_bounds
    ((sharedCourses completed sid1 sid2).map (fun cid =>
      |diffOf completed sid1 cid - diffOf completed sid2 cid|))
    (by
      intro d hd
      rw [List.mem_map] at hd
      obtain ⟨cid, _, rfl⟩ := hd
      exact abs_nonneg _) 5
  rcases h with h | h
  · exact h
  · norm_num at h

lemma perfScore_bounds (completed : List CRec) (sid1 sid2 : String) :
    0 ≤ perfScore completed sid1 sid2 ∧
      perfScore completed sid1 sid2 ≤ 1 := by
  obtain ⟨hg0, hg1⟩ := gradeAgreement_bounds completed sid1 sid2
  obtain ⟨hd0, hd1⟩ := difficultyAgreement_bounds completed sid1 sid2
  exact pyround2_unit (by linarith) (by linarith)

lemma styleScore_bounds (student similar : Student) (u : ℚ) :
    0 ≤ styleScore student similar u ∧
      styleScore student similar u ≤ 1 := by
  rw [styleScore]
  refine pyround2_unit ?_ ?_
  · refine le_trans (by norm_num) (le_max_left (1/10 : ℚ) _)
  · exact max_le (by norm_num) (min_le_left _ _)

/-- C9: every SIMILAR_PERFORMANCE edge has a source student whose index is
a multiple of 5, carries exactly the shared completed-course set of its
two endpoints with at least 3 elements, and its score is the 70/30
combination of the grade-agreement and difficulty-perception-agreement
scores over that shared set, rounded to two decimals. -/
theorem performance_similarity_shape (students : List Student)
    (completed : List CRec) (sampleStyle : Nat → List Student)
    (jitter : Nat → Nat → ℚ) :
    ∀ e ∈ (generateStudentSimilarity students completed sampleStyle
        jitter).2,
      (∃ p ∈ students.enum, p.1 % 5 = 0 ∧ p.2.id = e.sourceId) ∧
        e.courses = sharedCourses completed e.sourceId e.targetId ∧
        3 ≤ e.courses.length ∧
        e.similarity = pyround2
          (gradeAgreement completed e.sourceId e.targetId * (7/10) +
            difficultyAgreement completed e.sourceId e.targetId *
              (3/10)) := by
  intro e he
  rw [generateStudentSimilarity] at he
  simp only [List.mem_flatMap] at he
  obtain ⟨p, hp, hep⟩ := he
  split at hep
  · rename_i hmod
    rw [List.mem_filterMap] at hep
    obtain ⟨other, _, hoe⟩ := hep
    split at hoe
    · cases hoe
    · split at hoe
      · rename_i hcnt
        injection hoe with h
        subst h
        exact ⟨⟨p, hp, hmod, rfl⟩, rfl, hcnt, rfl⟩
      · cases hoe
  · cases hep

/-- C3: all bounded payload values stay inside their documented closed
ranges: every COMPLETED record's perceived difficulty is an integer in
[1, 5]; every similarity score on SIMILAR_CONTENT, SIMILAR_DIFFICULTY,
SIMILAR_LEARNING_STYLE and SIMILAR_PERFORMANCE edges lies in [0, 1]; and
the credits computation only produces values in {1, 2, 3, 4}. -/
theorem bounded_payload_values (students : List Student)
    (courses : List Course) (terms : List Term)
    (prereqs : List PrereqEdge) (ct : Term)
    (pick : String → Nat → List Course → List Course)
    (completed : List CRec) (sampleStyle : Nat → List Student)
    (jitter : Nat → Nat → ℚ)
    (coin1 coin2 : Nat → Nat → Bool) (u1 u2 : Nat → Nat → ℚ)
    (sampleC : Nat → List Course) (r1 r2 : Bool) (altCredits : Nat)
    (hu1 : ∀ i j, 1/10 ≤ u1 i j ∧ u1 i j ≤ 8/10)
    (hu2 : ∀ i j, 0 ≤ u2 i j ∧ u2 i j ≤ 2/10)
    (halt : altCredits = 1 ∨ altCredits = 2) :
    (∀ r ∈ generateStudentCourseHistory students courses terms prereqs ct
        pick, ∀ d, r.difficulty = some d → 1 ≤ d ∧ d ≤ 5) ∧
      (∀ e ∈ (generateCourseSimilarity courses coin1 u1 coin2 u2
          sampleC).1, 0 ≤ e.similarity ∧ e.similarity ≤ 1) ∧
      (∀ e ∈ (generateCourseSimilarity courses coin1 u1 coin2 u2
          sampleC).2, 0 ≤ e.similarity ∧ e.similarity ≤ 1) ∧
      (∀ e ∈ (generateStudentSimilarity students completed sampleStyle
          jitter).1, 0 ≤ e.similarity ∧ e.similarity ≤ 1) ∧
      (∀ e ∈ (generateStudentSimilarity students completed sampleStyle
          jitter).2, 0 ≤ e.similarity ∧ e.similarity ≤ 1) ∧
      creditsChoice r1 r2 altCredits ∈ [1, 2, 3, 4] := by
  refine ⟨?_, ?_, ?_, ?_, ?_, ?_⟩
  · intro r hr d hd
    rw [generateStudentCourseHistory, List.mem_flatMap] at hr
    obtain ⟨s, _, hrs⟩ := hr
    obtain ⟨_, _, _, hdiff⟩ := walk_basic courses (prereqGraph prereqs) ct
      (pick s.id) s _ 0 [] r hrs
    obtain ⟨c, rfl⟩ := hdiff d hd
    exact perceivedDifficulty_bounds s c
  · intro e he
    have hmem := dedupPairs_subset _ e he
    rw [List.mem_flatMap] at hmem
    obtain ⟨p, _, hep⟩ := hmem
    rw [contentEdgesFor, List.mem_append] at hep
    rcases hep with hep | hep <;> rw [List.mem_filterMap] at hep <;>
      obtain ⟨q, _, hq⟩ := hep <;> split at hq
    · injection hq with h
      subst h
      obtain ⟨ha, hb⟩ := hu1 p.1 q.1
      exact pyround2_unit (by linarith) (by linarith)
    · cases hq
    · injection hq with h
      subst h
      obtain ⟨ha, hb⟩ := hu2 p.1 q.1
      have hshared : (0 : ℚ) ≤ (sharedTagCount p.2 q.2 : ℚ) :=
        Nat.cast_nonneg _
      refine pyround2_unit (le_min (by norm_num) (by linarith)) ?_
      exact le_trans (min_le_left _ _) (by norm_num)
    · cases hq
  · intro e he
    have hmem := dedupPairs_subset _ e he
    rw [List.mem_flatMap] at hmem
    obtain ⟨p, _, hep⟩ := hmem
    rw [difficultyEdgesFor, List.mem_filterMap] at hep
    obtain ⟨similar, _, hq⟩ := hep
    split at hq
    · rename_i hcond
      injection hq with h
      subst h
      have hle : ((p.2.avgDifficulty - similar.avgDifficulty).natAbs : ℚ)
          ≤ 1 := by
        have := hcond.2
        exact_mod_cast this
      have hge : (0 : ℚ) ≤
          ((p.2.avgDifficulty - similar.avgDifficulty).natAbs : ℚ) :=
        Nat.cast_nonneg _
      exact pyround2_unit (by linarith) (by linarith)
    · cases hq
  · intro e he
    rw [generateStudentSimilarity] at he
    simp only [List.mem_flatMap] at he
    obtain ⟨p, _, hep⟩ := he
    rw [List.mem_filterMap] at hep
    obtain ⟨q, _, hq⟩ := hep
    split at hq
    · cases hq
    · injection hq with h
      subst h
      exact styleScore_bounds p.2 q.2 _
  · intro e he
    rw [generateStudentSimilarity] at he
    simp only [List.mem_flatMap] at he
    obtain ⟨p, _, hep⟩ := he
    split at hep
    · rw [List.mem_filterMap] at hep
      obtain ⟨other, _, hq⟩ := hep
      split at hq
      · cases hq
      · split at hq
        · injection hq with h
          subst h
          exact perfScore_bounds completed p.2.id other.id
        · cases hq
    · cases hep
  · rw [creditsChoice]
    rcases halt with rfl | rfl <;> cases r1 <;> cases r2 <;> simp

theorem bounded_payload_values_witness :
    creditsChoice true false 1 ∈ [1, 2, 3, 4] :=
  (bounded_payload_values [] [] [] [] ⟨.fall, 2025⟩ (fun _ _ l => l) []
    (fun _ => []) (fun _ _ => 0) (fun _ _ => true) (fun _ _ => true)
    (fun _ _ => 1/10) (fun _ _ => 0) (fun _ => []) true false 1
    (fun _ _ => by norm_num) (fun _ _ => by norm_num)
    (Or.inl rfl)).2.2.2.2.2

theorem enrolled_iff_current_term_witness :
    (wRecordB.enrolled = true ↔ wRecordB.term = getTermByDate 10 2025) ∧
      wRecordB.enrolled = false :=
  enrolled_iff_current_term [wStudent] [courseA, courseB] [wEdge] 10 2025
    (fun _ _ pool => pool.take 1) wRecordB
    (by rw [wHistory_eq]; simp [wRecordB])

def wStudentA : Student := ⟨"S1", "Visual", 3, "Standard", "In-person", 400⟩

def wStudentB : Student := ⟨"S2", "Visual", 3, "Standard", "In-person", 400⟩

def wCompleted : List CRec :=
  [⟨"S1", "X", "A", 3⟩, ⟨"S1", "Y", "B", 3⟩, ⟨"S1", "Z", "A", 2⟩,
   ⟨"S2", "X", "A", 3⟩, ⟨"S2", "Y", "B", 3⟩, ⟨"S2", "Z", "A", 2⟩]

def wPerfEdge : PerfEdge :=
  ⟨"S1", "S2", perfScore wCompleted "S1" "S2",
    sharedCourses wCompleted "S1" "S2"⟩

lemma wPerf_mem :
    wPerfEdge ∈ (generateStudentSimilarity [wStudentA, wStudentB]
      wCompleted (fun _ => []) (fun _ _ => 0)).2 := by
  simp only [generateStudentSimilarity]
  rw [List.mem_flatMap]
  refine ⟨(0, wStudentA), by decide, ?_⟩
  rw [if_pos (by decide)]
  rw [List.mem_filterMap]
  refine ⟨wStudentB, by decide, ?_⟩
  show (if wStudentB.id = wStudentA.id then none
    else if 3 ≤ (sharedCourses wCompleted wStudentA.id
        wStudentB.id).length then
      some ⟨wStudentA.id, wStudentB.id,
        perfScore wCompleted wStudentA.id wStudentB.id,
        sharedCourses wCompleted wStudentA.id wStudentB.id⟩
    else none) = some wPerfEdge
  rw [if_neg (by decide), if_pos (by decide)]
  rfl

theorem performance_similarity_shape_witness :
    (∃ p ∈ ([wStudentA, wStudentB] : List Student).enum,
        p.1 % 5 = 0 ∧ p.2.id = wPerfEdge.sourceId) ∧
      wPerfEdge.courses =
        sharedCourses wCompleted wPerfEdge.sourceId wPerfEdge.targetId ∧
      3 ≤ wPerfEdge.courses.length ∧
      wPerfEdge.similarity = pyround2
        (gradeAgreement wCompleted wPerfEdge.sourceId wPerfEdge.targetId *
            (7/10) +
          difficultyAgreement wCompleted wPerfEdge.sourceId
              wPerfEdge.targetId * (3/10)) :=
  performance_similarity_shape [wStudentA, wStudentB] wCompleted
    (fun _ => []) (fun _ _ => 0) wPerfEdge wPerf_mem
